import Mathlib

/-!
Verification of the task-store core of the to-do application (`src/App.py`).

The store works on JSON data: the persisted file holds a JSON array of task
records, each a JSON object with a `description` and a `completed` field.
We embed JSON values shallowly (`JVal`), model the file system state seen by
the store (`FileState`), and translate the five Python functions that form
the core: `load_tasks`, `save_tasks`, `ToDoApp.add_new_task`,
`ToDoApp.delete_task` and `TaskItem.on_checkbox_active` (the completion
toggle), together with the UI entry point `MainLayout.add_task_from_input`.

Python exceptions are modelled by `Except PyError`; a `try/except` block
becomes a `match` on the body's result.  Python objects (dicts) are embedded
as insertion-ordered association lists, as produced by `json.load`, which
never yields duplicate keys.  Python's `==` is embedded as `pyEq` (dict
comparison ignores key order; booleans coerce to integers), and
`str.strip()` as `pyStrip` over CPython's whitespace table.
-/

/-- A JSON value, as produced by Python's `json.load`: `None`, booleans,
numbers, strings, lists, and dicts (insertion-ordered, no duplicate keys). -/
inductive JVal where
  | null
  | bool (b : Bool)
  | num (n : Int)
  | str (s : String)
  | arr (elems : List JVal)
  | obj (fields : List (String × JVal))

mutual

/-- Structural (value) equality on embedded JSON values. -/
def JVal.beq : JVal → JVal → Bool
  | .null, .null => true
  | .bool a, .bool c => a == c
  | .num a, .num c => a == c
  | .str a, .str c => a == c
  | .arr xs, .arr ys => JVal.beqArr xs ys
  | .obj fs, .obj gs => JVal.beqObj fs gs
  | _, _ => false

/-- Equality on JSON arrays, elementwise. -/
def JVal.beqArr : List JVal → List JVal → Bool
  | [], [] => true
  | x :: xs, y :: ys => JVal.beq x y && JVal.beqArr xs ys
  | _, _ => false

/-- Equality on JSON objects, fieldwise. -/
def JVal.beqObj : List (String × JVal) → List (String × JVal) → Bool
  | [], [] => true
  | (k, v) :: fs, (l, w) :: gs => k == l && JVal.beq v w && JVal.beqObj fs gs
  | _, _ => false

end

mutual

theorem JVal.beq_iff : ∀ (a b : JVal), JVal.beq a b = true ↔ a = b
  | .null, b => by cases b <;> simp [JVal.beq]
  | .bool a, b => by cases b <;> simp [JVal.beq]
  | .num a, b => by cases b <;> simp [JVal.beq]
  | .str a, b => by cases b <;> simp [JVal.beq]
  | .arr xs, b => by
      cases b <;> simp [JVal.beq]
      exact JVal.beqArr_iff xs _
  | .obj fs, b => by
      cases b <;> simp [JVal.beq]
      exact JVal.beqObj_iff fs _

theorem JVal.beqArr_iff : ∀ (xs ys : List JVal), JVal.beqArr xs ys = true ↔ xs = ys
  | [], [] => by simp [JVal.beqArr]
  | [], _ :: _ => by simp [JVal.beqArr]
  | _ :: _, [] => by simp [JVal.beqArr]
  | x :: xs, y :: ys => by
      simp [JVal.beqArr, JVal.beq_iff x y, JVal.beqArr_iff xs ys]

theorem JVal.beqObj_iff :
    ∀ (fs gs : List (String × JVal)), JVal.beqObj fs gs = true ↔ fs = gs
  | [], [] => by simp [JVal.beqObj]
  | [], _ :: _ => by simp [JVal.beqObj]
  | _ :: _, [] => by simp [JVal.beqObj]
  | (k, v) :: fs, (l, w) :: gs => by
      simp [JVal.beqObj, JVal.beq_iff v w, JVal.beqObj_iff fs gs, and_assoc]

end

instance : DecidableEq JVal := fun a b => decidable_of_iff _ (JVal.beq_iff a b)

deriving instance DecidableEq for Except

/-- State of the persisted `tasks.json` file as the store sees it: absent;
present but not valid UTF-8 (reading it raises `UnicodeDecodeError`); valid
UTF-8 that is not valid JSON (`json.load` raises `JSONDecodeError`);
unreadable (an I/O failure on read raises `IOError`); or present with a
parsed JSON content. -/
inductive FileState where
  | missing
  | badEncoding
  | malformed
  | unreadable
  | parsed (content : JVal)
deriving DecidableEq

/-- The Python exceptions relevant to the store: `json.JSONDecodeError`,
`IOError`, `TypeError` (iterating a non-iterable), `ValueError`
(`list.remove` on an absent element), `KeyError` (missing dict key), and
`UnicodeDecodeError` (reading bytes that are not valid UTF-8), which
subclasses `ValueError`, not `json.JSONDecodeError` and not `IOError`. -/
inductive PyError where
  | decodeError
  | ioError
  | typeError
  | valueError
  | keyError
  | unicodeDecodeError
deriving DecidableEq

/-- Python's `key in dict` test on an embedded dict. -/
def hasKey (fields : List (String × JVal)) (k : String) : Bool :=
  fields.any (fun p => p.1 = k)

/-- Python's `dict[key]` read on an embedded dict (`none` means `KeyError`). -/
def getKey (fields : List (String × JVal)) (k : String) : Option JVal :=
  match fields with
  | [] => none
  | (l, v) :: rest => if l = k then some v else getKey rest k

/-- Python's `dict[key] = value` assignment on an embedded dict: replaces the
value in place if the key is present, appends the pair otherwise. -/
def setKey (fields : List (String × JVal)) (k : String) (v : JVal) :
    List (String × JVal) :=
  match fields with
  | [] => [(k, v)]
  | (l, w) :: rest => if l = k then (k, v) :: rest else (l, w) :: setKey rest k v

mutual

/-- Python's `==` on the values `json.load` can produce: `None`, booleans,
numbers, strings, lists and dicts.  Booleans coerce to integers
(`True == 1`); dict comparison ignores key order; lists compare
elementwise. -/
def pyEq : JVal → JVal → Bool
  | .null, .null => true
  | .bool a, .bool c => a == c
  | .bool a, .num n => (if a then (1 : Int) else 0) == n
  | .num n, .bool a => n == (if a then (1 : Int) else 0)
  | .num m, .num n => m == n
  | .str a, .str c => a == c
  | .arr xs, .arr ys => pyEqArr xs ys
  | .obj fs, .obj gs => fs.length == gs.length && pyEqFields fs gs
  | _, _ => false

/-- Python's `==` on lists: same length, elementwise equal. -/
def pyEqArr : List JVal → List JVal → Bool
  | [], [] => true
  | x :: xs, y :: ys => pyEq x y && pyEqArr xs ys
  | _, _ => false

/-- One direction of Python's dict `==`: every key of the first dict is
present in the second with a `pyEq`-equal value (together with the length
check in `pyEq` this is exactly dict equality). -/
def pyEqFields : List (String × JVal) → List (String × JVal) → Bool
  | [], _ => true
  | (k, v) :: fs, gs =>
      (match getKey gs k with
       | some w => pyEq v w
       | none => false) && pyEqFields fs gs

end

/-- The characters Python's `str.strip()` removes: the code points CPython
treats as whitespace (ASCII whitespace, the C0 separators, NEL, NBSP, Ogham
space mark, the Unicode space separators, and the line and paragraph
separators). -/
def pyIsSpace (c : Char) : Bool :=
  (9 ≤ c.toNat && c.toNat ≤ 13) || (28 ≤ c.toNat && c.toNat ≤ 32) ||
  c.toNat = 133 || c.toNat = 160 || c.toNat = 5760 ||
  (8192 ≤ c.toNat && c.toNat ≤ 8202) || c.toNat = 8232 || c.toNat = 8233 ||
  c.toNat = 8239 || c.toNat = 8287 || c.toNat = 12288

/-- Python's `str.strip()`: drops leading and trailing whitespace. -/
def pyStrip (s : String) : String :=
  .mk (((s.toList.dropWhile pyIsSpace).reverse.dropWhile pyIsSpace).reverse)

/-- Python's `for task in tasks_data` over an arbitrary JSON value: a list
yields its elements, a dict its keys, a string its characters; `None`,
booleans and numbers are not iterable (`TypeError`). -/
def pyIterate (v : JVal) : Except PyError (List JVal) :=
  match v with
  | .arr xs => .ok xs
  | .obj fields => .ok (fields.map (fun p => JVal.str p.1))
  | .str s => .ok (s.toList.map (fun c => JVal.str (.mk [c])))
  | _ => .error .typeError

/-- The validity test of `load_tasks`'s list comprehension
(`src/App.py:27-30`): `isinstance(task, dict) and 'description' in task and
'completed' in task`. -/
def isValidTask (t : JVal) : Bool :=
  match t with
  | .obj fields => hasKey fields "description" && hasKey fields "completed"
  | _ => false

/-- The body of `load_tasks`'s `try` block (`src/App.py:24-31`): read the
file as UTF-8, parse it, keep the valid dicts.  Bytes that are not valid
UTF-8 raise `UnicodeDecodeError`; valid UTF-8 that is not valid JSON raises
`JSONDecodeError`; a read failure raises `IOError`; iterating a
non-iterable parsed value raises `TypeError`. -/
def load_tasks_body (fs : FileState) : Except PyError (List JVal) :=
  match fs with
  | .missing => .ok []
  | .badEncoding => .error .unicodeDecodeError
  | .malformed => .error .decodeError
  | .unreadable => .error .ioError
  | .parsed v => do
      let items ← pyIterate v
      pure (items.filter isValidTask)

/-- The exception classes named by `load_tasks`'s `except` clause
(`src/App.py:32`): `(json.JSONDecodeError, IOError, TypeError)`.
`UnicodeDecodeError` is not among them and none of the three is a
superclass of it, so it is not caught. -/
def caught_by_load : PyError → Bool
  | .decodeError => true
  | .ioError => true
  | .typeError => true
  | .valueError => false
  | .keyError => false
  | .unicodeDecodeError => false

/-- `load_tasks` (`src/App.py:19-34`): missing file gives `[]` before the
`try`; a caught error is logged and gives `[]`; an uncaught error would
propagate (`.error`). -/
def load_tasks (fs : FileState) : Except PyError (List JVal) :=
  if fs = .missing then .ok []
  else
    match load_tasks_body fs with
    | .ok ts => .ok ts
    | .error e => if caught_by_load e then .ok [] else .error e

/-- `save_tasks` (`src/App.py:36-42`): `json.dump` rewrites the file with the
serialized task list; on `IOError` (`ioOk = false`) the condition is logged
and the file is left as it was. -/
def save_tasks (tasks : List JVal) (ioOk : Bool) (fs : FileState) : FileState :=
  if ioOk then .parsed (.arr tasks) else fs

/-- The application state the claims are about: the in-memory task list
(`ToDoApp.tasks`) and the persisted file. -/
structure AppState where
  tasks : List JVal
  file : FileState
deriving DecidableEq

/-- The task record built by `ToDoApp.add_new_task` (`src/App.py:278`). -/
def mkTask (description : String) : JVal :=
  .obj [("description", .str description), ("completed", .bool false)]

/-- `ToDoApp.add_new_task` (`src/App.py:275-279`): a truthy (non-empty)
description is inserted at position 0 as a fresh record, then the full list
is saved. -/
def add_new_task (st : AppState) (description : String) (ioOk : Bool) :
    AppState :=
  if description = "" then st
  else
    { tasks := mkTask description :: st.tasks,
      file := save_tasks (mkTask description :: st.tasks) ioOk st.file }

/-- `MainLayout.add_task_from_input` (`src/App.py:250-256`): strip the input;
only a non-empty result is handed to `add_new_task`. -/
def add_task_from_input (st : AppState) (input : String) (ioOk : Bool) :
    AppState :=
  if pyStrip input = "" then st
  else add_new_task st (pyStrip input) ioOk

/-- Python's `list.remove(x)`: removes the first element that `==` (`pyEq`)
judges equal to `x`; raises `ValueError` when no element is equal. -/
def pyListRemove (ts : List JVal) (t : JVal) : Except PyError (List JVal) :=
  match ts with
  | [] => .error .valueError
  | x :: rest =>
      if pyEq x t then .ok rest
      else (pyListRemove rest t).map (fun ts => x :: ts)

/-- `ToDoApp.delete_task` (`src/App.py:281-288`): `self.tasks.remove(...)`
then save; a `ValueError` (task not found, the only error `remove` can
raise) is caught, logged, and the state is left untouched. -/
def delete_task (st : AppState) (t : JVal) (ioOk : Bool) : AppState :=
  match pyListRemove st.tasks t with
  | .ok ts => { tasks := ts, file := save_tasks ts ioOk st.file }
  | .error _ => st

/-- `TaskItem.on_checkbox_active` (`src/App.py:167-172`) for the task at
position `i`: `task_data['completed'] = value` mutates the record in place
inside `ToDoApp.tasks`, then `save_all_tasks` saves the full list.  `none`
means the callback cannot fire: no task widget exists at `i`, or the record
is not a dict (subscript assignment would raise). -/
def on_checkbox_active (st : AppState) (i : Nat) (value : Bool) (ioOk : Bool) :
    Option AppState :=
  match st.tasks[i]? with
  | some (.obj fields) =>
      some { tasks := st.tasks.set i (.obj (setKey fields "completed" (.bool value))),
             file := save_tasks
               (st.tasks.set i (.obj (setKey fields "completed" (.bool value))))
               ioOk st.file }
  | _ => none

/-- The states the application can reach: `ToDoApp.build` loads the file
(`src/App.py:271`; a raising load would abort startup, hence the `.ok`
premise), then the UI fires any sequence of add, delete and toggle
callbacks. -/
inductive Reachable : AppState → Prop where
  | startup (fs : FileState) (ts : List JVal) :
      load_tasks fs = .ok ts → Reachable { tasks := ts, file := fs }
  | add (st : AppState) (input : String) (ok : Bool) :
      Reachable st → Reachable (add_task_from_input st input ok)
  | delete (st : AppState) (t : JVal) (ok : Bool) :
      Reachable st → Reachable (delete_task st t ok)
  | toggle (st st' : AppState) (i : Nat) (v ok : Bool) :
      Reachable st → on_checkbox_active st i v ok = some st' → Reachable st'

/-- The (description, completed) pair carried by a task record, the data the
spec's round-trip property compares. -/
def taskPair (t : JVal) : Option JVal × Option JVal :=
  match t with
  | .obj fields => (getKey fields "description", getKey fields "completed")
  | _ => (none, none)

theorem load_tasks_parsed_arr (entries : List JVal) :
    load_tasks (.parsed (.arr entries)) = .ok (entries.filter isValidTask) := by
  simp [load_tasks, load_tasks_body, pyIterate]

/-- C1: saving any sequence of well-formed task records and loading it back
yields a sequence equal to the original in (description, completed) pairs,
order preserved; in fact the loaded records equal the saved ones. -/
theorem C1_save_load_round_trip (ts : List JVal) (fs : FileState)
    (h : ∀ t ∈ ts, isValidTask t = true) :
    load_tasks (save_tasks ts true fs) = .ok ts ∧
    (load_tasks (save_tasks ts true fs)).map (List.map taskPair)
      = .ok (ts.map taskPair) := by
  have hsave : save_tasks ts true fs = .parsed (.arr ts) := rfl
  have hload : load_tasks (save_tasks ts true fs) = .ok ts := by
    rw [hsave, load_tasks_parsed_arr, List.filter_eq_self.mpr h]
  exact ⟨hload, by rw [hload]; rfl⟩

theorem C1_witness :
    load_tasks (save_tasks [mkTask "Buy milk"] true .missing)
      = .ok [mkTask "Buy milk"] :=
  (C1_save_load_round_trip [mkTask "Buy milk"] .missing (by decide)).1

/-- C2: adding from the input field strips surrounding whitespace; a
non-empty result is inserted at position 0 as a fresh uncompleted record and
the list is saved; a whitespace-only input leaves the state unchanged. -/
theorem C2_add_semantics (st : AppState) (input : String) (ok : Bool) :
    (pyStrip input = "" → add_task_from_input st input ok = st) ∧
    (pyStrip input ≠ "" →
      (add_task_from_input st input ok).tasks
          = JVal.obj [("description", .str (pyStrip input)),
                      ("completed", .bool false)] :: st.tasks ∧
      (add_task_from_input st input ok).file
          = save_tasks ((add_task_from_input st input ok).tasks) ok st.file) := by
  constructor
  · intro h
    simp [add_task_from_input, h]
  · intro h
    simp [add_task_from_input, h, add_new_task, mkTask]

theorem C2_witness :
    (add_task_from_input ⟨[], .missing⟩ "Buy milk" true).tasks
      = [JVal.obj [("description", .str "Buy milk"), ("completed", .bool false)]] ∧
    add_task_from_input ⟨[], .missing⟩ "  " true = ⟨[], .missing⟩ ∧
    (add_task_from_input
        ⟨[JVal.obj [("description", .str "Buy milk"), ("completed", .bool false)]],
         .parsed (.arr [JVal.obj [("description", .str "Buy milk"),
                                  ("completed", .bool false)]])⟩
        "Call mom" true).tasks
      = [JVal.obj [("description", .str "Call mom"), ("completed", .bool false)],
         JVal.obj [("description", .str "Buy milk"), ("completed", .bool false)]] := by
  have hstrip : pyStrip "Buy milk" = "Buy milk" := by decide
  have hstrip2 : pyStrip "Call mom" = "Call mom" := by decide
  refine ⟨?_, (C2_add_semantics ⟨[], .missing⟩ "  " true).1 (by decide), ?_⟩
  · have h := ((C2_add_semantics ⟨[], .missing⟩ "Buy milk" true).2 (by decide)).1
    rw [hstrip] at h
    exact h
  · have h := ((C2_add_semantics
        ⟨[JVal.obj [("description", .str "Buy milk"), ("completed", .bool false)]],
         .parsed (.arr [JVal.obj [("description", .str "Buy milk"),
                                  ("completed", .bool false)]])⟩
        "Call mom" true).2 (by decide)).1
    rw [hstrip2] at h
    exact h

theorem load_tasks_parsed_nonarr (v : JVal) (h : ∀ xs, v ≠ JVal.arr xs) :
    load_tasks (.parsed v) = .ok [] := by
  cases v with
  | arr xs => exact absurd rfl (h xs)
  | obj fields =>
      have hf : (fields.map (fun p => JVal.str p.1)).filter isValidTask = [] := by
        rw [List.filter_eq_nil_iff]
        intro a ha
        obtain ⟨p, _, rfl⟩ := List.mem_map.mp ha
        simp [isValidTask]
      show Except.ok ((fields.map (fun p => JVal.str p.1)).filter isValidTask)
        = Except.ok []
      rw [hf]
  | str s =>
      have hf : (s.toList.map (fun c => JVal.str (.mk [c]))).filter isValidTask
          = [] := by
        rw [List.filter_eq_nil_iff]
        intro a ha
        obtain ⟨c, _, rfl⟩ := List.mem_map.mp ha
        simp [isValidTask]
      show Except.ok ((s.toList.map (fun c => JVal.str (.mk [c]))).filter isValidTask)
        = Except.ok []
      rw [hf]
  | null => rfl
  | bool b => rfl
  | num n => rfl

/-- C3: refuted on the code.  A tasks.json whose bytes are not valid UTF-8
makes the read inside `json.load` raise `UnicodeDecodeError` — a subclass of
`ValueError`, a sibling of `json.JSONDecodeError` and not an `IOError` — so
the except tuple of `load_tasks` does not catch it and the error propagates
to the caller instead of yielding an empty list.  Every other branch of the
claim does hold: a missing file, malformed JSON in valid UTF-8, an I/O read
failure, and parsed non-list content all yield the empty list without
raising. -/
theorem C3_load_raises_on_bad_encoding :
    load_tasks .badEncoding = .error .unicodeDecodeError ∧
    caught_by_load .unicodeDecodeError = false ∧
    load_tasks .missing = .ok [] ∧
    load_tasks .malformed = .ok [] ∧
    load_tasks .unreadable = .ok [] ∧
    load_tasks (.parsed (.obj [("not", .str "a list")])) = .ok [] := by
  decide

/-- Retention test as the spec words it: an entry is kept iff it is
record-shaped (a dict) and has both a description and a completed field. -/
def specRetained (t : JVal) : Bool :=
  match t with
  | .obj fields => hasKey fields "description" && hasKey fields "completed"
  | _ => false

/-- C4: loading a parsed list keeps exactly the record-shaped entries that
carry both required fields, in their original relative order (the result is
the filtered subsequence); in particular the spec's example keeps only its
first entry. -/
theorem C4_filter_on_load (entries : List JVal) :
    load_tasks (.parsed (.arr entries)) = .ok (entries.filter specRetained) ∧
    (entries.filter specRetained).Sublist entries ∧
    load_tasks (.parsed (.arr
        [.obj [("description", .str "x"), ("completed", .bool false)],
         .obj [("foo", .str "bar")],
         .obj [("description", .str "y")]]))
      = .ok [.obj [("description", .str "x"), ("completed", .bool false)]] := by
  have hpred : specRetained = isValidTask := rfl
  exact ⟨by rw [load_tasks_parsed_arr, hpred], List.filter_sublist entries, by decide⟩

theorem pyListRemove_split (t : JVal) :
    ∀ (l r : List JVal) (x : JVal), (∀ y ∈ l, pyEq y t = false) →
      pyEq x t = true → pyListRemove (l ++ x :: r) t = .ok (l ++ r)
  | [], r, x, _, hx => by simp [pyListRemove, hx]
  | y :: ys, r, x, hl, hx => by
      have hy : ¬pyEq y t = true := by
        simp [hl y (List.mem_cons_self y ys)]
      have hrest : ∀ z ∈ ys, pyEq z t = false :=
        fun z hz => hl z (List.mem_cons_of_mem y hz)
      simp only [List.cons_append, pyListRemove, if_neg hy, List.append_eq,
        pyListRemove_split t ys r x hrest hx, Except.map]

theorem pyListRemove_none (t : JVal) :
    ∀ (ts : List JVal), (∀ y ∈ ts, pyEq y t = false) →
      pyListRemove ts t = .error .valueError
  | [], _ => rfl
  | x :: xs, h => by
      have hx : ¬pyEq x t = true := by
        simp [h x (List.mem_cons_self x xs)]
      have hrest : ∀ z ∈ xs, pyEq z t = false :=
        fun z hz => h z (List.mem_cons_of_mem x hz)
      simp only [pyListRemove, if_neg hx, pyListRemove_none t xs hrest,
        Except.map]

/-- C5: deleting a task removes the first list element that Python's `==`
judges equal to it (dict comparison ignores key order), keeps the rest in
order, and saves; when no element is `==`-equal the `ValueError` is caught
and logged and the state — list and file — is untouched (no save, no
propagation). -/
theorem C5_delete_semantics (st : AppState) (t : JVal) (ok : Bool) :
    (∀ l r x, st.tasks = l ++ x :: r → (∀ y ∈ l, pyEq y t = false) →
      pyEq x t = true →
      delete_task st t ok =
        { tasks := l ++ r, file := save_tasks (l ++ r) ok st.file }) ∧
    ((∀ y ∈ st.tasks, pyEq y t = false) → delete_task st t ok = st) := by
  constructor
  · intro l r x hsplit hl hx
    simp only [delete_task, hsplit, pyListRemove_split t l r x hl hx]
  · intro h
    simp only [delete_task, pyListRemove_none t st.tasks h]

theorem C5_witness :
    delete_task
        ⟨[JVal.obj [("completed", JVal.bool false), ("description", JVal.str "x")],
          JVal.obj [("description", JVal.str "x"), ("completed", JVal.bool false)]],
         .missing⟩
        (JVal.obj [("description", JVal.str "x"), ("completed", JVal.bool false)])
        true
      = ⟨[JVal.obj [("description", JVal.str "x"), ("completed", JVal.bool false)]],
         .parsed (.arr [JVal.obj [("description", JVal.str "x"),
                                  ("completed", JVal.bool false)]])⟩ ∧
    delete_task ⟨[mkTask "a"], .missing⟩ (mkTask "b") true
      = ⟨[mkTask "a"], .missing⟩ := by
  constructor
  · have h := (C5_delete_semantics
        ⟨[JVal.obj [("completed", JVal.bool false), ("description", JVal.str "x")],
          JVal.obj [("description", JVal.str "x"), ("completed", JVal.bool false)]],
         .missing⟩
        (JVal.obj [("description", JVal.str "x"), ("completed", JVal.bool false)])
        true).1
        []
        [JVal.obj [("description", JVal.str "x"), ("completed", JVal.bool false)]]
        (JVal.obj [("completed", JVal.bool false), ("description", JVal.str "x")])
        rfl (fun y hy => absurd hy (List.not_mem_nil y)) (by decide)
    simpa [save_tasks] using h
  · refine (C5_delete_semantics ⟨[mkTask "a"], .missing⟩ (mkTask "b") true).2 ?_
    intro y hy
    have hy' := List.mem_singleton.mp hy
    subst hy'
    decide

theorem getKey_setKey_self (k : String) (v : JVal) :
    ∀ (fields : List (String × JVal)), getKey (setKey fields k v) k = some v
  | [] => by simp [setKey, getKey]
  | (l, w) :: rest => by
      by_cases h : l = k
      · simp [setKey, getKey, h]
      · simp [setKey, getKey, h, getKey_setKey_self k v rest]

theorem getKey_setKey_ne (k k' : String) (v : JVal) (hk : k' ≠ k) :
    ∀ (fields : List (String × JVal)),
      getKey (setKey fields k v) k' = getKey fields k'
  | [] => by
      have hk' : ¬k = k' := fun hkk => hk hkk.symm
      simp [setKey, getKey, hk']
  | (l, w) :: rest => by
      by_cases h : l = k
      · subst h
        have hk' : ¬l = k' := fun hkk => hk hkk.symm
        simp [setKey, getKey, hk, hk']
      · by_cases h' : l = k'
        · simp [setKey, getKey, h, h', hk]
        · simp [setKey, getKey, h, h', getKey_setKey_ne k k' v hk rest]

theorem setKey_setKey (k : String) (v w : JVal) :
    ∀ (fields : List (String × JVal)),
      setKey (setKey fields k v) k w = setKey fields k w
  | [] => by simp [setKey]
  | (l, u) :: rest => by
      by_cases h : l = k
      · simp [setKey, h]
      · simp [setKey, h, setKey_setKey k v w rest]

theorem setKey_getKey_self (k : String) (v : JVal) :
    ∀ (fields : List (String × JVal)),
      getKey fields k = some v → setKey fields k v = fields
  | [] => by simp [getKey]
  | (l, u) :: rest => by
      by_cases h : l = k
      · simp [setKey, getKey, h]
        intro hv
        exact hv.symm
      · simp [setKey, getKey, h]
        exact setKey_getKey_self k v rest

theorem hasKey_eq_isSome (k : String) :
    ∀ (fields : List (String × JVal)), hasKey fields k = (getKey fields k).isSome
  | [] => rfl
  | (l, v) :: rest => by
      by_cases h : l = k
      · simp [hasKey, getKey, h]
      · have ih := hasKey_eq_isSome k rest
        simp only [hasKey] at ih
        simp [hasKey, getKey, h, ih]

theorem hasKey_setKey_self (k : String) (v : JVal)
    (fields : List (String × JVal)) : hasKey (setKey fields k v) k = true := by
  rw [hasKey_eq_isSome, getKey_setKey_self]
  rfl

theorem hasKey_setKey_of (k k' : String) (v : JVal)
    (fields : List (String × JVal)) (hk : hasKey fields k' = true) :
    hasKey (setKey fields k v) k' = true := by
  by_cases h : k' = k
  · subst h
    exact hasKey_setKey_self k' v fields
  · rw [hasKey_eq_isSome, getKey_setKey_ne k k' v h, ← hasKey_eq_isSome]
    exact hk

theorem set_of_getElem? {α : Type} (a : α) :
    ∀ (l : List α) (i : Nat), l[i]? = some a → l.set i a = l
  | [], i => by simp
  | x :: xs, 0 => by
      intro h
      simp only [List.getElem?_cons_zero, Option.some.injEq] at h
      simp [List.set, h]
  | x :: xs, i + 1 => by
      intro h
      simp only [List.getElem?_cons_succ] at h
      simp [List.set, set_of_getElem? a xs i h]

/-- C6: toggling the task at position `i` sets exactly its completed field
to the given value in place: the description and every other field keep
their values, every other task and the task's position are untouched, and
when the original completed value was the boolean `b`, toggling back to `b`
restores the original task list. -/
theorem C6_toggle_semantics (st st' : AppState) (i : Nat) (v ok : Bool)
    (fields : List (String × JVal))
    (hi : st.tasks[i]? = some (.obj fields))
    (hset : on_checkbox_active st i v ok = some st') :
    st'.tasks[i]? = some (.obj (setKey fields "completed" (.bool v))) ∧
    getKey (setKey fields "completed" (.bool v)) "completed"
      = some (.bool v) ∧
    (∀ k, k ≠ "completed" →
      getKey (setKey fields "completed" (.bool v)) k = getKey fields k) ∧
    st'.tasks.length = st.tasks.length ∧
    (∀ j, j ≠ i → st'.tasks[j]? = st.tasks[j]?) ∧
    (∀ b, getKey fields "completed" = some (.bool b) →
      ∀ ok' st'', on_checkbox_active st' i b ok' = some st'' →
        st''.tasks = st.tasks) := by
  have hlt : i < st.tasks.length := (List.getElem?_eq_some_iff.mp hi).1
  have hst' : st'.tasks
      = st.tasks.set i (.obj (setKey fields "completed" (.bool v))) := by
    rw [on_checkbox_active, hi] at hset
    cases hset
    rfl
  have hgi : st'.tasks[i]? = some (.obj (setKey fields "completed" (.bool v))) := by
    rw [hst']
    exact List.getElem?_set_self hlt
  refine ⟨hgi, getKey_setKey_self _ _ fields,
    fun k hk => getKey_setKey_ne _ k _ hk fields,
    by rw [hst', List.length_set],
    fun j hj => by rw [hst', List.getElem?_set_ne (fun he => hj he.symm)],
    fun b hb ok' st'' hset'' => ?_⟩
  rw [on_checkbox_active, hgi] at hset''
  cases hset''
  show st'.tasks.set i
      (JVal.obj (setKey (setKey fields "completed" (.bool v)) "completed" (.bool b)))
      = st.tasks
  rw [hst', List.set_set, setKey_setKey, setKey_getKey_self _ _ fields hb,
    set_of_getElem? _ st.tasks i hi]

theorem C6_witness :
    getKey (setKey [("description", JVal.str "Buy milk"),
        ("completed", JVal.bool false)] "completed" (JVal.bool true)) "completed"
      = some (JVal.bool true) ∧
    getKey (setKey [("description", JVal.str "Buy milk"),
        ("completed", JVal.bool false)] "completed" (JVal.bool true)) "description"
      = some (JVal.str "Buy milk") ∧
    (AppState.mk
        [JVal.obj [("description", JVal.str "Buy milk"),
                   ("completed", JVal.bool false)]]
        (FileState.parsed (JVal.arr
          [JVal.obj [("description", JVal.str "Buy milk"),
                     ("completed", JVal.bool false)]]))).tasks
      = [mkTask "Buy milk"] := by
  have h := C6_toggle_semantics
      ⟨[mkTask "Buy milk"], .missing⟩
      ⟨[JVal.obj [("description", JVal.str "Buy milk"),
                  ("completed", JVal.bool true)]],
       FileState.parsed (JVal.arr
         [JVal.obj [("description", JVal.str "Buy milk"),
                    ("completed", JVal.bool true)]])⟩
      0 true true
      [("description", JVal.str "Buy milk"), ("completed", JVal.bool false)]
      (by decide) (by decide)
  refine ⟨h.2.1, ?_, ?_⟩
  · have hd := h.2.2.1 "description" (by decide)
    rw [hd]
    rfl
  · exact h.2.2.2.2.2 false (by decide) true
      ⟨[JVal.obj [("description", JVal.str "Buy milk"),
                  ("completed", JVal.bool false)]],
       FileState.parsed (JVal.arr
         [JVal.obj [("description", JVal.str "Buy milk"),
                    ("completed", JVal.bool false)]])⟩
      (by decide)

/-- C7: every mutating operation saves the full in-memory list before
returning: when the write succeeds, the persisted file equals the
serialization of the resulting in-memory sequence, for add (non-empty
description), successful delete, and the completion toggle. -/
theorem C7_save_on_mutation (st : AppState) :
    (∀ d, d ≠ "" →
      (add_new_task st d true).file
        = .parsed (.arr (add_new_task st d true).tasks)) ∧
    (∀ t ts, pyListRemove st.tasks t = .ok ts →
      (delete_task st t true).file
        = .parsed (.arr (delete_task st t true).tasks)) ∧
    (∀ i v st', on_checkbox_active st i v true = some st' →
      st'.file = .parsed (.arr st'.tasks)) := by
  refine ⟨fun d hd => ?_, fun t ts ht => ?_, fun i v st' hset => ?_⟩
  · simp [add_new_task, hd, save_tasks]
  · simp [delete_task, ht, save_tasks]
  · unfold on_checkbox_active at hset
    match hmatch : st.tasks[i]? with
    | some (.obj fields) =>
        rw [hmatch] at hset
        cases hset
        rfl
    | some .null | some (.bool _) | some (.num _) | some (.str _)
    | some (.arr _) | none =>
        rw [hmatch] at hset
        cases hset

theorem C7_witness :
    (add_new_task ⟨[], .missing⟩ "a" true).file
      = .parsed (.arr (add_new_task ⟨[], .missing⟩ "a" true).tasks) ∧
    (delete_task ⟨[mkTask "a"], .missing⟩ (mkTask "a") true).file
      = .parsed (.arr (delete_task ⟨[mkTask "a"], .missing⟩ (mkTask "a") true).tasks) ∧
    (AppState.mk [JVal.obj [("description", JVal.str "a"), ("completed", JVal.bool true)]]
        (FileState.parsed (JVal.arr
          [JVal.obj [("description", JVal.str "a"), ("completed", JVal.bool true)]]))).file
      = .parsed (.arr
          (AppState.mk [JVal.obj [("description", JVal.str "a"), ("completed", JVal.bool true)]]
            (FileState.parsed (JVal.arr
              [JVal.obj [("description", JVal.str "a"), ("completed", JVal.bool true)]]))).tasks) := by
  have h := C7_save_on_mutation ⟨[mkTask "a"], .missing⟩
  have h0 := C7_save_on_mutation ⟨[], .missing⟩
  refine ⟨h0.1 "a" (by decide), h.2.1 (mkTask "a") [] (by decide), ?_⟩
  exact h.2.2 0 true
      ⟨[JVal.obj [("description", JVal.str "a"), ("completed", JVal.bool true)]],
       FileState.parsed (JVal.arr
         [JVal.obj [("description", JVal.str "a"), ("completed", JVal.bool true)]])⟩
      (by decide)

theorem load_tasks_body_all_valid (fs : FileState) (ts : List JVal)
    (h : load_tasks_body fs = .ok ts) : ∀ t ∈ ts, isValidTask t = true := by
  cases fs with
  | missing =>
      cases h
      intro t ht
      cases ht
  | badEncoding => cases h
  | malformed => cases h
  | unreadable => cases h
  | parsed v =>
      cases v with
      | arr xs =>
          have : ts = xs.filter isValidTask := by
            cases h
            rfl
          subst this
          exact fun t ht => List.of_mem_filter ht
      | obj fields =>
          have : ts = (fields.map (fun p => JVal.str p.1)).filter isValidTask := by
            cases h
            rfl
          subst this
          exact fun t ht => List.of_mem_filter ht
      | str s =>
          have : ts = (s.toList.map (fun c => JVal.str (.mk [c]))).filter isValidTask := by
            cases h
            rfl
          subst this
          exact fun t ht => List.of_mem_filter ht
      | null => cases h
      | bool b => cases h
      | num n => cases h

theorem load_tasks_all_valid (fs : FileState) (ts : List JVal)
    (h : load_tasks fs = .ok ts) : ∀ t ∈ ts, isValidTask t = true := by
  unfold load_tasks at h
  by_cases hm : fs = FileState.missing
  · rw [if_pos hm] at h
    cases h
    intro t ht
    cases ht
  · rw [if_neg hm] at h
    match hbody : load_tasks_body fs with
    | .ok ts0 =>
        rw [hbody] at h
        have h' : Except.ok ts0 = Except.ok ts := h
        cases h'
        exact load_tasks_body_all_valid fs _ hbody
    | .error e =>
        rw [hbody] at h
        have h' : (if caught_by_load e = true then Except.ok ([] : List JVal)
            else Except.error e) = Except.ok ts := h
        by_cases hc : caught_by_load e = true
        · rw [if_pos hc] at h'
          cases h'
          intro t ht
          cases ht
        · rw [if_neg hc] at h'
          cases h'

theorem mkTask_valid (d : String) : isValidTask (mkTask d) = true := by
  simp [mkTask, isValidTask, hasKey]

theorem pyListRemove_subset (t : JVal) :
    ∀ (ts ts' : List JVal), pyListRemove ts t = .ok ts' → ∀ x ∈ ts', x ∈ ts
  | [], ts', h => by cases h
  | x :: xs, ts', h => by
      by_cases hx : pyEq x t = true
      · rw [pyListRemove, if_pos hx] at h
        cases h
        exact fun y hy => List.mem_cons_of_mem x hy
      · rw [pyListRemove, if_neg hx] at h
        match hrec : pyListRemove xs t with
        | .ok ys =>
            rw [hrec] at h
            cases h
            intro y hy
            rcases List.mem_cons.mp hy with rfl | hyy
            · exact List.mem_cons_self _ _
            · exact List.mem_cons_of_mem x (pyListRemove_subset t xs ys hrec y hyy)
        | .error e =>
            rw [hrec] at h
            cases h

/-- C8: in every state reachable from startup (a load followed by any
sequence of add, delete and toggle operations) every in-memory record is a
dict carrying both a description and a completed field. -/
theorem C8_invariant (st : AppState) (h : Reachable st) :
    ∀ t ∈ st.tasks, isValidTask t = true := by
  induction h with
  | startup fs ts hload => exact load_tasks_all_valid fs ts hload
  | add st input ok _ ih =>
      intro t ht
      unfold add_task_from_input at ht
      by_cases hs : pyStrip input = ""
      · rw [if_pos hs] at ht
        exact ih t ht
      · rw [if_neg hs] at ht
        unfold add_new_task at ht
        rw [if_neg hs] at ht
        rcases List.mem_cons.mp ht with rfl | hmem
        · exact mkTask_valid _
        · exact ih t hmem
  | delete st t ok _ ih =>
      intro x hx
      unfold delete_task at hx
      match hrem : pyListRemove st.tasks t with
      | .ok ts' =>
          rw [hrem] at hx
          exact ih x (pyListRemove_subset t st.tasks ts' hrem x hx)
      | .error e =>
          rw [hrem] at hx
          exact ih x hx
  | toggle st st' i v ok _ hset ih =>
      intro x hx
      unfold on_checkbox_active at hset
      match hmatch : st.tasks[i]? with
      | some (.obj fields) =>
          rw [hmatch] at hset
          cases hset
          rcases List.mem_or_eq_of_mem_set hx with hmem | rfl
          · exact ih x hmem
          · have hold : isValidTask (.obj fields) = true :=
              ih _ (List.getElem?_mem hmatch)
            simp only [isValidTask, Bool.and_eq_true] at hold ⊢
            exact ⟨hasKey_setKey_of _ _ _ fields hold.1,
              hasKey_setKey_self _ _ fields⟩
      | some .null | some (.bool _) | some (.num _) | some (.str _)
      | some (.arr _) | none =>
          rw [hmatch] at hset
          cases hset

theorem C8_witness :
    (add_task_from_input ⟨[], .missing⟩ "a" true).tasks.all
      (fun t => isValidTask t) = true :=
  List.all_eq_true.mpr
    (fun t ht =>
      C8_invariant (add_task_from_input ⟨[], .missing⟩ "a" true)
        (Reachable.add ⟨[], .missing⟩ "a" true
          (Reachable.startup .missing [] rfl)) t ht)

/-- C9: records that survive the load filter are kept verbatim, extra fields
included, and the next successful save rewrites the file wholesale as the
serialization of exactly those records. -/
theorem C9_extra_fields_preserved (entries : List JVal) (fs : FileState)
    (ts : List JVal)
    (hload : load_tasks (.parsed (.arr entries)) = .ok ts) :
    save_tasks ts true fs = .parsed (.arr ts) ∧
    (∀ e ∈ entries, isValidTask e = true → e ∈ ts) ∧
    (∀ e ∈ ts, e ∈ entries) := by
  have hts : ts = entries.filter isValidTask := by
    rw [load_tasks_parsed_arr] at hload
    exact (Except.ok.inj hload).symm
  subst hts
  exact ⟨rfl,
    fun e he hv => List.mem_filter.mpr ⟨he, hv⟩,
    fun e he => List.mem_of_mem_filter he⟩

theorem C9_witness :
    save_tasks [JVal.obj [("description", JVal.str "x"),
        ("completed", JVal.bool false), ("extra", JVal.num 42)]] true .missing
      = .parsed (.arr [JVal.obj [("description", JVal.str "x"),
          ("completed", JVal.bool false), ("extra", JVal.num 42)]]) ∧
    JVal.obj [("description", JVal.str "x"), ("completed", JVal.bool false),
        ("extra", JVal.num 42)]
      ∈ [JVal.obj [("description", JVal.str "x"), ("completed", JVal.bool false),
          ("extra", JVal.num 42)]] := by
  have h := C9_extra_fields_preserved
      [JVal.obj [("description", JVal.str "x"), ("completed", JVal.bool false),
        ("extra", JVal.num 42)]]
      .missing
      [JVal.obj [("description", JVal.str "x"), ("completed", JVal.bool false),
        ("extra", JVal.num 42)]]
      (by decide)
  exact ⟨h.1, h.2.1 _ (List.mem_singleton.mpr rfl) (by decide)⟩

/-- C10: the load filter checks only that the two keys are present, never
the types of their values: any dict entry with both keys is valid and is
kept in the loaded sequence. -/
theorem C10_presence_only (entries : List JVal)
    (fields : List (String × JVal))
    (hd : hasKey fields "description" = true)
    (hc : hasKey fields "completed" = true)
    (hm : JVal.obj fields ∈ entries) :
    isValidTask (.obj fields) = true ∧
    load_tasks (.parsed (.arr entries)) = .ok (entries.filter isValidTask) ∧
    JVal.obj fields ∈ entries.filter isValidTask := by
  have hv : isValidTask (.obj fields) = true := by
    simp [isValidTask, hd, hc]
  exact ⟨hv, load_tasks_parsed_arr entries, List.mem_filter.mpr ⟨hm, hv⟩⟩

theorem C10_witness :
    isValidTask (.obj [("description", JVal.num 5),
        ("completed", JVal.str "yes")]) = true ∧
    JVal.obj [("description", JVal.num 5), ("completed", JVal.str "yes")]
      ∈ [JVal.obj [("description", JVal.num 5),
          ("completed", JVal.str "yes")]].filter isValidTask := by
  have h := C10_presence_only
      [JVal.obj [("description", JVal.num 5), ("completed", JVal.str "yes")]]
      [("description", JVal.num 5), ("completed", JVal.str "yes")]
      (by decide) (by decide) (by decide)
  exact ⟨h.1, h.2.2⟩
